import Mathlib

/-!
# Shallow embedding of the sequence-indexed QA memory system

This file embeds, in Lean 4, the data model and the operations of the
repository's memory scripts (`memory-log.py`, `memory-load.py`,
`subagent-summarize.py`, `context-injection.py`) and proves the spec's
claims about them.

Modelling conventions:
* Python `float` values are modelled as exact rationals (`ℚ`); all the
  weights used by the code (0.3, 0.2, 0.25, 0.15, 0.1, 1.5, 0.85, 0.5, 0.8)
  are exact decimals, and no claim depends on binary rounding.
* Python `str` is `String`; an optional answer (`Optional[str]`) is
  `Option String`, and Python truthiness of such a value (`if a:`) is
  `pyTruthyStr` (false for `None` and for the empty string).
* Python exceptions that propagate out of a function are modelled with
  `Except PyExn`; an `Except.error` value is an uncaught exception.
* The single JSON index document is the structure `Store`; mutation of the
  in-memory dict followed by a successful file write is modelled as a pure
  function returning the new `Store`.
-/

namespace SeqQA

/-! ## Python text primitives -/

/-- `strStarts needle hay`: does `hay` start with `needle`? (char-by-char). -/
def strStarts : List Char → List Char → Bool
  | [], _ => true
  | _ :: _, [] => false
  | c :: cs, d :: ds => c == d && strStarts cs ds

/-- Scan of all suffixes of `hay` for a prefix-match of `needle`. -/
def strHasSubAux (needle : List Char) : List Char → Bool
  | [] => strStarts needle []
  | c :: rest => strStarts needle (c :: rest) || strHasSubAux needle rest

/-- Python's substring test `needle in hay`. -/
def pyIn (needle hay : String) : Bool :=
  strHasSubAux needle.data hay.data

/-- Python `text.lower()`, character by character (kernel-reducible
replacement for `String.toLower`, which is defined by well-founded
recursion and does not evaluate under `decide`). -/
def pyLower (s : String) : String := String.mk (s.data.map Char.toLower)

/-- First-occurrence deduplication, with an accumulator of seen elements. -/
def dedupFirstAux [BEq α] (seen : List α) : List α → List α
  | [] => []
  | x :: xs => if seen.contains x then dedupFirstAux seen xs
               else x :: dedupFirstAux (x :: seen) xs

/-- Models `list(set(l))`: Python set iteration order is hash-dependent; we
fix it to first-occurrence order.  No claim depends on which order the set
iterates in (only on the resulting count and membership for short inputs). -/
def dedupFirst [BEq α] (l : List α) : List α := dedupFirstAux [] l

/-- Python `\w` word character (ASCII view: letters, digits, underscore). -/
def isWordChar (c : Char) : Bool := c.isAlphanum || c == '_'

/-- Maximal runs of word characters of a character list (accumulator holds
the current run reversed).  Models `re.findall(r'\b\w+\b', ...)` where a
length filter is applied afterwards by the caller. -/
def tokenRunsAux (cur : List Char) : List Char → List String
  | [] => if cur.isEmpty then [] else [String.mk cur.reverse]
  | c :: cs =>
    if isWordChar c then tokenRunsAux (c :: cur) cs
    else if cur.isEmpty then tokenRunsAux [] cs
    else String.mk cur.reverse :: tokenRunsAux [] cs

/-- `extract_tokens` of `memory-log.py` / `memory-load.py`:
`re.findall(r'\b\w{2,}\b', text.lower())` (maximal word-character runs of
length ≥ 2 of the lowercased text), then `list(set(tokens))[:20]`. -/
def extract_tokens (text : String) : List String :=
  (dedupFirst ((tokenRunsAux [] (pyLower text).data).filter
    (fun t => t.length ≥ 2))).take 20

/-- Count of maximal non-whitespace runs (`inWord` records whether the
scan is currently inside a word). -/
def countWordsAux (inWord : Bool) : List Char → Nat
  | [] => 0
  | c :: cs =>
    if c.isWhitespace then countWordsAux false cs
    else if inWord then countWordsAux true cs
    else 1 + countWordsAux true cs

/-- Python `len(s.split())`: number of maximal non-empty
whitespace-separated words. -/
def pySplitCount (s : String) : Nat := countWordsAux false s.data

/-- Python `min(x, y)` on floats (ties keep the first argument). -/
def pyMin (x y : ℚ) : ℚ := if x ≤ y then x else y

/-- Python `max(x, y)` on floats (ties keep the first argument). -/
def pyMax (x y : ℚ) : ℚ := if y ≤ x then x else y

/-- Python truthiness of an `Optional[str]`: `None` and `""` are falsy. -/
def pyTruthyStr : Option String → Bool
  | none => false
  | some s => !s.isEmpty

/-! ## Significance scorer (`memory-log.py`, `score_significance`) -/

def technical_keywords : List String :=
  ["code", "function", "api", "database", "design", "architecture",
   "config", "system", "algorithm", "implement", "optimization"]

def important_keywords : List String :=
  ["important", "重要", "critical", "must", "必须", "security", "安全"]

def action_keywords : List String :=
  ["how to", "怎样", "如何", "follow these", "按照", "step"]

/-- `score_significance(q, a, prev_topic=None)` of `memory-log.py`.
`prev_topic` is accepted and ignored, exactly as in the source. -/
def score_significance (q : String) (a : Option String)
    (_prev_topic : Option String) : ℚ :=
  match a with
  | none => 0
  | some ans =>
    let lengthFactor : ℚ := pyMin ((ans.length : ℚ) / 500) 1 * (3/10)
    let complexityFactor : ℚ :=
      pyMin (((extract_tokens q).length : ℚ) / 8) 1 * (1/5)
    let technical : ℚ :=
      if technical_keywords.any (fun kw => pyIn kw (pyLower ans)) then 1/4 else 0
    let importance : ℚ :=
      if important_keywords.any
          (fun kw => pyIn kw (pyLower ans) || pyIn kw (pyLower q)) then 3/20 else 0
    let actionable : ℚ :=
      if action_keywords.any
          (fun kw => pyIn kw (pyLower ans) || pyIn kw (pyLower q)) then 1/10 else 0
    pyMin (lengthFactor + complexityFactor + technical + importance + actionable) 1

/-! ## Index store data model (the `qa-index.json` document) -/

/-- `hash_text` of `memory-log.py` computes an MD5 hex digest, used only as
an opaque dictionary key for `by_semantic_hash`.  No claim depends on the
digest value (only on which question the key was derived from), so we stand
in an injective executable encoding for it. -/
def hash_text (text : String) : String := "md5:" ++ text

structure QAEntry where
  seq : Nat
  timestamp : String
  user : String
  q : String
  q_tokens : List String
  q_hash : String
  a : Option String
  a_significance : ℚ
  a_tokens : Nat
  topic_tags : List String
deriving DecidableEq, Repr

structure Session where
  session_id : String
  last_updated : String
  qa_sequence : List QAEntry
deriving DecidableEq, Repr

/-- A `{"session": ..., "seq": ...}` reference in a secondary index. -/
structure IndexRef where
  session : String
  seq : Nat
deriving DecidableEq, Repr

/-- A `{"session": ..., "seq": ..., "timestamp": ...}` recency-index entry. -/
structure RecencyRef where
  session : String
  seq : Nat
  timestamp : String
deriving DecidableEq, Repr

/-- The three secondary indices.  JSON objects (Python dicts) are modelled
as association lists in key-insertion order. -/
structure Indexes where
  by_topic : List (String × List IndexRef)
  by_recency : List RecencyRef
  by_semantic_hash : List (String × IndexRef)
deriving DecidableEq, Repr

/-- The `metadata` counters.  `stored_answers_count` and
`empty_answers_count` are read with `.get(key, 0)` in the source; a missing
key behaves exactly like the value 0, so they are plain `Nat` fields. -/
structure StoreMetadata where
  total_qa_pairs : Nat
  stored_answers : Nat
  stored_answers_count : Nat
  empty_answers_count : Nat
  last_updated : String
deriving DecidableEq, Repr

/-- The whole index document. -/
structure Store where
  metadata : StoreMetadata
  sessions : List Session
  index : Indexes
deriving DecidableEq, Repr

/-! ## `memory-log.py`: `get_next_seq` and `add_qa` -/

/-- `get_next_seq` of `memory-log.py`.  The source re-reads the index file;
single-threaded (spec §5), it sees the same document `add_qa` read, so the
parsed store is a parameter.  `max([...], default=0) + 1` is
`List.foldl max 0 + 1`; an unknown session yields 1. -/
def get_next_seq (data : Store) (session_id : String) : Nat :=
  match data.sessions.find? (fun s => s.session_id == session_id) with
  | some sess => (sess.qa_sequence.map (fun qa => qa.seq)).foldl max 0 + 1
  | none => 1

/-- Replace the first element satisfying `p` by its image under `f`;
`none` when no element matches.  Models the
`for session in data['sessions']: if ...: mutate; break` loop of `add_qa`
together with its `session_found` flag. -/
def update_first (p : α → Bool) (f : α → α) : List α → Option (List α)
  | [] => none
  | x :: xs =>
    if p x then some (f x :: xs)
    else (update_first p f xs).map (fun l => x :: l)

/-- The `by_topic` update of `add_qa`: create the key with `[]` when absent,
then append the reference to its list. -/
def topic_insert (bt : List (String × List IndexRef)) (tag : String)
    (r : IndexRef) : List (String × List IndexRef) :=
  if bt.any (fun p => p.1 == tag) then
    bt.map (fun p => if p.1 == tag then (p.1, p.2 ++ [r]) else p)
  else bt ++ [(tag, [r])]

/-- Python dict assignment `m[k] = v`: overwrite in place, or append. -/
def dict_set (m : List (String × IndexRef)) (k : String) (v : IndexRef) :
    List (String × IndexRef) :=
  if m.any (fun p => p.1 == k) then
    m.map (fun p => if p.1 == k then (p.1, v) else p)
  else m ++ [(k, v)]

inductive AddError where
  | sessionNotFound
deriving DecidableEq, Repr

/-- The `qa_entry` dict built by `add_qa` (`sig` is already clamped). -/
def mk_qa_entry (now : String) (next_seq : Nat) (user q : String)
    (a : Option String) (topic_tags : Option (List String)) (sig : ℚ) :
    QAEntry :=
  { seq := next_seq
    timestamp := now
    user := user
    q := q
    q_tokens := extract_tokens q
    q_hash := hash_text q
    a := a
    a_significance := sig
    a_tokens := match a with
      | some s => if s.isEmpty then 0 else pySplitCount s
      | none => 0
    topic_tags := topic_tags.getD [] }

/-- `add_qa` of `memory-log.py`.  `now` is `datetime.utcnow()` rendered as
an ISO string.  A `.ok` result is the document as written back to disk; the
`.error` result models `return False` on a missing session, which happens
before any mutation or file write.  (The initial `sys.exit(1)` on a missing
index file and the final `IOError` branch on write are outside the pure
store transition modelled here; no claim depends on them.) -/
def add_qa (data : Store) (now : String) (session_id user q : String)
    (a : Option String) (topic_tags : Option (List String))
    (significance : Option ℚ) : Except AddError Store :=
  let sig : ℚ := pyMax 0 (pyMin 1 (significance.getD (score_significance q a none)))
  let next_seq := get_next_seq data session_id
  let entry := mk_qa_entry now next_seq user q a topic_tags sig
  match update_first (fun s => s.session_id == session_id)
      (fun s => { s with qa_sequence := s.qa_sequence ++ [entry],
                         last_updated := now }) data.sessions with
  | none => .error .sessionNotFound
  | some sessions' =>
    let by_topic' := (topic_tags.getD []).foldl
      (fun bt tag => topic_insert bt tag ⟨session_id, next_seq⟩)
      data.index.by_topic
    let by_recency' : List RecencyRef :=
      ⟨session_id, next_seq, now⟩ :: data.index.by_recency
    let by_hash' := dict_set data.index.by_semantic_hash (hash_text q)
      ⟨session_id, next_seq⟩
    let answered := pyTruthyStr a
    .ok
      { metadata :=
          { total_qa_pairs := data.metadata.total_qa_pairs + 1
            stored_answers :=
              if answered then data.metadata.stored_answers + 1
              else data.metadata.stored_answers
            stored_answers_count :=
              if answered then data.metadata.stored_answers_count + 1
              else data.metadata.stored_answers_count
            empty_answers_count :=
              if answered then data.metadata.empty_answers_count
              else data.metadata.empty_answers_count + 1
            last_updated := now }
        sessions := sessions'
        index :=
          { by_topic := by_topic'
            by_recency := by_recency'
            by_semantic_hash := by_hash' } }

/-! ## `memory-load.py`: query engine -/

/-- Exceptions that Python propagates out of the modelled functions. -/
inductive PyExn where
  | typeError
  | jsonDecodeError
  | zeroDivisionError
deriving DecidableEq, Repr

/-- Python's unary minus applied to a `str` value: always a `TypeError`
(`bad operand type for unary -: 'str'`). -/
def pyNegStr (_s : String) : Except PyExn Int := .error .typeError

/-- The dict appended to `relevant` for each surviving entry. -/
structure RelevantPair where
  score : ℚ
  session : String
  seq : Nat
  q : String
  a : Option String
  significance : ℚ
  timestamp : String
deriving DecidableEq, Repr

/-- The session pre-filter `if session_id and session['session_id'] !=
session_id: continue` (a `None` or empty filter string is falsy and
disables the filter). -/
def session_passes (session_id : Option String) (sid : String) : Bool :=
  match session_id with
  | none => true
  | some v => if v.isEmpty then true else sid == v

/-- The same-session boost test `session['session_id'] == session_id`
(comparing a `str` with an `Optional[str]`: `None` never equals). -/
def session_boost (session_id : Option String) (sid : String) : Bool :=
  match session_id with
  | none => false
  | some v => sid == v

/-- The min-significance filter of `find_relevant_pairs`: an entry is
dropped iff `qa['a'] and qa['a_significance'] < min_significance`. -/
def keep_pair (qa : QAEntry) (min_significance : ℚ) : Bool :=
  !(pyTruthyStr qa.a && qa.a_significance < min_significance)

/-- One `relevant` record: token-overlap count (`len(query_tokens &
set(qa['q_tokens']))`), boosted ×1.5 on a session match. -/
def mk_relevant (query_tokens : List String) (session_id : Option String)
    (sess : Session) (qa : QAEntry) : RelevantPair :=
  let overlap : Nat :=
    ((dedupFirst qa.q_tokens).filter (fun t => query_tokens.contains t)).length
  let score : ℚ :=
    if session_boost session_id sess.session_id then (overlap : ℚ) * (3/2)
    else (overlap : ℚ)
  { score := score, session := sess.session_id, seq := qa.seq, q := qa.q,
    a := qa.a, significance := qa.a_significance, timestamp := qa.timestamp }

/-- The `relevant` list as built by the two nested loops of
`find_relevant_pairs`, before the sort. -/
def relevant_candidates (data : Store) (query : String)
    (session_id : Option String) (min_significance : ℚ) : List RelevantPair :=
  let query_tokens := extract_tokens query
  (data.sessions.filter (fun s => session_passes session_id s.session_id)).flatMap
    (fun sess =>
      (sess.qa_sequence.filter (fun qa => keep_pair qa min_significance)).map
        (mk_relevant query_tokens session_id sess))

/-- The sort key `lambda x: (-x['score'], -x['timestamp'])`: the first
component is fine, the second negates an ISO-format *string* timestamp. -/
def sort_key (x : RelevantPair) : Except PyExn (ℚ × Int) := do
  let nt ← pyNegStr x.timestamp
  pure (-x.score, nt)

/-- Ascending lexicographic order on the computed sort keys. -/
def key_le (k1 k2 : ℚ × Int) : Bool :=
  k1.1 < k2.1 || (k1.1 == k2.1 && k1.2 ≤ k2.2)

/-- `find_relevant_pairs` of `memory-load.py`.  `list.sort(key=...)`
computes the key of every element before sorting, so the key computation is
a `mapM`; with at least one candidate it raises `TypeError`. -/
def find_relevant_pairs (data : Store) (query : String)
    (session_id : Option String) (limit : Nat) (min_significance : ℚ) :
    Except PyExn (List RelevantPair) := do
  let relevant := relevant_candidates data query session_id min_significance
  let keyed ← relevant.mapM (fun x => do
    let k ← sort_key x
    pure (k, x))
  let sorted := (keyed.mergeSort (fun p q => key_le p.1 q.1)).map Prod.snd
  pure (sorted.take limit)

/-! ## `memory-load.py`: `get_recent_context` -/

structure RecentPair where
  seq : Nat
  q : String
  a : Option String
  timestamp : String
deriving DecidableEq, Repr

/-- Python slice `l[-window:]` for a non-negative `window`: `-0` is `0`, so
`window = 0` keeps the whole list. -/
def py_slice_last (l : List α) (window : Nat) : List α :=
  if window = 0 then l else l.drop (l.length - window)

/-- `get_recent_context` of `memory-load.py`: the first session with the
given id yields its last `window` entries (whole list when shorter — or
when `window = 0`); an unknown session yields `[]`. -/
def get_recent_context (data : Store) (session_id : String) (window : Nat) :
    List RecentPair :=
  match data.sessions.find? (fun s => s.session_id == session_id) with
  | none => []
  | some sess =>
    let qs := sess.qa_sequence
    let recent := if qs.length ≥ window then py_slice_last qs window else qs
    recent.map (fun qa =>
      { seq := qa.seq, q := qa.q, a := qa.a, timestamp := qa.timestamp })

/-! ## `subagent-summarize.py`: extraction snapshot analysis -/

/-- A question record of the aggregate `*-qa.json` metadata (as written by
`get_conversations_since` of `extract-conversations.py`). -/
structure QMeta where
  seq : Nat
  timestamp : String
  user : String
  q : String
  q_tokens : List String
  topics : List String
deriving DecidableEq, Repr

/-- An answer record of the aggregate metadata.  `significance` is read
back with `a.get('significance', 0)`, hence `Option`. -/
structure AMeta where
  seq : Nat
  timestamp : String
  user : String
  q : String
  a : String
  significance : Option ℚ
  a_tokens : Nat
deriving DecidableEq, Repr

/-- The parsed aggregate metadata document.  `questions` / `answers` /
`cutoff_time` are `Option` because the analysis code guards for their
absence (`'questions' in metadata`, `metadata.get(...)`). -/
structure SnapshotMeta where
  count : Nat
  questions : Option (List QMeta)
  answers : Option (List AMeta)
  summary : String
  cutoff_time : Option String
deriving DecidableEq, Repr

/-- A file matching `*-qa.json`: either it parses, or `json.load` raises. -/
inductive MetaFile where
  | wellFormed (m : SnapshotMeta)
  | malformed
deriving DecidableEq, Repr

/-- The on-disk state of one extraction directory, as `read_extracted_files`
observes it: existence, the `*-qa.json` glob results, and the optional
`questions/` and `answers/` subdirectories (filename → file content). -/
structure ExtractionDirFS where
  path : String
  present : Bool
  meta_files : List MetaFile
  questions_dir : Option (List (String × String))
  answers_dir : Option (List (String × String))
deriving DecidableEq, Repr

/-- The success value of `read_extracted_files` (the dict with `metadata`,
`questions`, `answers`; the two counts are derived lengths). -/
structure ExtractData where
  metadata : SnapshotMeta
  questions : List (String × String)
  answers : List (String × String)
deriving DecidableEq, Repr

/-- Result dict of `read_extracted_files`: either an `{'error': ...}` dict
or the data dict. -/
inductive ReadResult where
  | err (msg : String)
  | ok (d : ExtractData)
deriving DecidableEq, Repr

/-- `read_extracted_files` of `subagent-summarize.py`.  A missing directory
or an empty `*-qa.json` glob produce an explicit error dict; a malformed
metadata file makes `json.load` raise `JSONDecodeError`, which the function
does not catch. -/
def read_extracted_files (fs : ExtractionDirFS) : Except PyExn ReadResult :=
  if !fs.present then .ok (.err ("Directory not found: " ++ fs.path))
  else
    match fs.meta_files with
    | [] => .ok (.err ("No metadata file found in " ++ fs.path))
    | .malformed :: _ => .error .jsonDecodeError
    | .wellFormed m :: _ =>
      .ok (.ok { metadata := m,
                 questions := fs.questions_dir.getD [],
                 answers := fs.answers_dir.getD [] })

/-- An entry of `analysis['high_significance_answers']`. -/
structure HighAns where
  seq : Nat
  q_preview : String
  significance : ℚ
  tokens : Nat
deriving DecidableEq, Repr

/-- An entry of `analysis['low_significance_answers']`. -/
structure LowAns where
  seq : Nat
  q_preview : String
  significance : ℚ
deriving DecidableEq, Repr

/-- The structured analysis record. -/
structure Analysis where
  period : Option String
  total_questions : Nat
  total_answers : Nat
  topics : List (String × Nat)
  high_significance_answers : List HighAns
  low_significance_answers : List LowAns
  missing_answers : List Nat
  patterns : List String
deriving DecidableEq, Repr

/-- `analyze_conversations` passes an error dict through unchanged. -/
inductive AnalyzeResult where
  | err (msg : String)
  | ok (a : Analysis)
deriving DecidableEq, Repr

/-- One step of topic counting:
`analysis['topics'][topic] = analysis['topics'].get(topic, 0) + 1`. -/
def count_topic (m : List (String × Nat)) (t : String) : List (String × Nat) :=
  if m.any (fun p => p.1 == t) then
    m.map (fun p => if p.1 == t then (p.1, p.2 + 1) else p)
  else m ++ [(t, 1)]

/-- Topic frequencies over the metadata question records. -/
def topic_counts (qs : List QMeta) : List (String × Nat) :=
  qs.foldl (fun m q => q.topics.foldl count_topic m) []

/-- The `sig >= 0.85` / `elif sig < 0.5` classification loop over the
metadata answer records, in original order. -/
def classify_answers : List AMeta → List HighAns × List LowAns
  | [] => ([], [])
  | a :: rest =>
    let p := classify_answers rest
    let sig := a.significance.getD 0
    if sig ≥ 17/20 then
      ({ seq := a.seq, q_preview := a.q, significance := sig,
         tokens := a.a_tokens } :: p.1, p.2)
    else if sig < 1/2 then
      (p.1, { seq := a.seq, q_preview := a.q, significance := sig } :: p.2)
    else p

/-- Question sequence numbers with no matching answer sequence number
(`q_seqs - a_seqs`, sorted ascending; `[]` when `questions` is absent or
nothing is missing). -/
def missing_answers_of (meta : SnapshotMeta) : List Nat :=
  match meta.questions with
  | none => []
  | some qs =>
    let q_seqs := dedupFirst (qs.map (fun q => q.seq))
    let a_seqs := (meta.answers.getD []).map (fun a => a.seq)
    let missing := q_seqs.filter (fun s => !a_seqs.contains s)
    if missing.isEmpty then [] else missing.mergeSort (fun a b => Nat.ble a b)

/-- `max(dict, key=dict.get)`: the first key attaining the maximal count
(Python `max` keeps the earlier element on ties). -/
def top_topic : List (String × Nat) → Option (String × Nat)
  | [] => none
  | p :: rest =>
    match top_topic rest with
    | none => some p
    | some q => if q.2 > p.2 then some q else some p

/-- `analyze_conversations` of `subagent-summarize.py`.  The quality-pattern
block divides by `len(metadata.get('answers', []))`, which raises
`ZeroDivisionError` when there are more than 5 answer *files* but no
metadata answer records. -/
def analyze_conversations : ReadResult → Except PyExn AnalyzeResult
  | .err m => .ok (.err m)
  | .ok d =>
    let meta := d.metadata
    let topics := topic_counts (meta.questions.getD [])
    let hilo := classify_answers (meta.answers.getD [])
    let missing := missing_answers_of meta
    let total_answers := d.answers.length
    (do
      let quality ←
        if total_answers > 5 then
          let metaAns := meta.answers.getD []
          if metaAns.length = 0 then Except.error PyExn.zeroDivisionError
          else
            let avg : ℚ :=
              ((metaAns.map (fun a => a.significance.getD 0)).sum) /
                (metaAns.length : ℚ)
            pure ((if avg > 4/5 then ["High quality conversation period"]
                   else []) ++
                  (if avg < 1/2 then ["Low quality/off-topic conversation"]
                   else []))
        else pure []
      let focus := match top_topic topics with
        | some p => ["Focus topic: " ++ p.1]
        | none => []
      pure (AnalyzeResult.ok
        { period := meta.cutoff_time
          total_questions := d.questions.length
          total_answers := total_answers
          topics := topics
          high_significance_answers := hilo.1
          low_significance_answers := hilo.2
          missing_answers := missing
          patterns := quality ++ focus }))

/-- `generate_report` output: either the short-circuiting error message or
the full multi-line report.  The full report is a fixed textual rendering
of the analysis record; no claim depends on its exact text, so the report
value carries the record it renders. -/
inductive Report where
  | errorReport (msg : String)
  | fullReport (a : Analysis)
deriving DecidableEq, Repr

/-- `generate_report` of `subagent-summarize.py`: an error analysis yields
only `"❌ Error: " + msg` and nothing else is generated. -/
def generate_report : AnalyzeResult → Report
  | .err m => .errorReport ("❌ Error: " ++ m)
  | .ok a => .fullReport a

/-- The `__main__` pipeline of `subagent-summarize.py`: read, analyze,
report.  An `Except.error` is an uncaught exception crashing the run. -/
def summarize_pipeline (fs : ExtractionDirFS) : Except PyExn Report := do
  let d ← read_extracted_files fs
  let a ← analyze_conversations d
  pure (generate_report a)

/-! ## Invariants (spec §3 and §8) -/

/-- Strictly increasing list of naturals. -/
def strict_incr : List Nat → Bool
  | [] => true
  | [_] => true
  | a :: b :: rest => Nat.blt a b && strict_incr (b :: rest)

/-- A session's sequence numbers start at 1 and strictly increase in
insertion order. -/
def session_seq_ok (s : Session) : Bool :=
  (match s.qa_sequence with
   | [] => true
   | e :: _ => e.seq == 1) &&
  strict_incr (s.qa_sequence.map (fun qa => qa.seq))

def store_seq_ok (st : Store) : Bool :=
  st.sessions.all session_seq_ok

/-- An index reference resolves to a real entry: some session has the
referenced id and holds an entry with the referenced sequence number. -/
def ref_ok (st : Store) (r : IndexRef) : Bool :=
  st.sessions.any (fun s =>
    s.session_id == r.session &&
    s.qa_sequence.any (fun e => e.seq == r.seq))

/-- Every reference of the three secondary indices resolves. -/
def index_consistent (st : Store) : Bool :=
  st.index.by_topic.all (fun p => p.2.all (ref_ok st)) &&
  st.index.by_recency.all (fun r => ref_ok st ⟨r.session, r.seq⟩) &&
  st.index.by_semantic_hash.all (fun p => ref_ok st p.2)

/-- One observable append: some successful `add_qa` call leads from `s`
to `t`. -/
def append_step (s t : Store) : Prop :=
  ∃ now session_id user q a topic_tags significance,
    add_qa s now session_id user q a topic_tags significance = .ok t

/-! ## Concrete instances used as witnesses and counterexamples -/

/-- The question of the spec's worked example (§8). -/
def spec_example_question : String := "how to optimize the database architecture"

/-- A concrete answer satisfying the worked example's premises: length
exactly 600, containing the words "architecture" and "important". -/
def spec_example_answer : String :=
  "the architecture is important " ++ String.mk (List.replicate 570 'a')

def demo_entry : QAEntry :=
  { seq := 1
    timestamp := "2026-10-12T00:00:00Z"
    user := "alice"
    q := "what is the database"
    q_tokens := extract_tokens "what is the database"
    q_hash := hash_text "what is the database"
    a := none
    a_significance := 0
    a_tokens := 0
    topic_tags := [] }

def demo_session : Session :=
  { session_id := "demo"
    last_updated := "2026-10-12T00:00:00Z"
    qa_sequence := [demo_entry] }

/-- A small concrete store with one session holding one entry. -/
def demo_store : Store :=
  { metadata :=
      { total_qa_pairs := 1, stored_answers := 0, stored_answers_count := 0,
        empty_answers_count := 1, last_updated := "2026-10-12T00:00:00Z" }
    sessions := [demo_session]
    index :=
      { by_topic := []
        by_recency := [⟨"demo", 1, "2026-10-12T00:00:00Z"⟩]
        by_semantic_hash := [(hash_text "what is the database", ⟨"demo", 1⟩)] } }

/-- `demo_store` after one successful append. -/
def demo_store2 : Store :=
  (add_qa demo_store "2026-10-12T01:00:00Z" "demo" "bob"
    "how to tune the database"
    (some "use an index, this is important for the database design")
    (some ["db"]) none).toOption.getD demo_store

/-- `demo_store` after an append with an explicit significance override
of 1.5 (out of range, to exercise the clamp). -/
def demo_store3 : Store :=
  (add_qa demo_store "2026-10-12T02:00:00Z" "demo" "carol"
    "which index should we use"
    (some "a covering index") none (some (3/2))).toOption.getD demo_store

/-- Extraction directory with a malformed aggregate metadata file. -/
def malformed_dir : ExtractionDirFS :=
  { path := "/mem/extract-1", present := true, meta_files := [.malformed],
    questions_dir := none, answers_dir := none }

/-- Extraction directory that does not exist. -/
def missing_dir : ExtractionDirFS :=
  { path := "/mem/extract-2", present := false, meta_files := [],
    questions_dir := none, answers_dir := none }

/-- Extraction directory present but with no `*-qa.json` file. -/
def no_meta_dir : ExtractionDirFS :=
  { path := "/mem/extract-3", present := true, meta_files := [],
    questions_dir := none, answers_dir := none }

/-- One answer record with significance 0.9 (sequence number `i`). -/
def a_meta_09 (i : Nat) : AMeta :=
  { seq := i, timestamp := "2026-10-12T00:00:00Z", user := "alice",
    q := "a question", a := "an answer", significance := some (9/10),
    a_tokens := 2 }

/-- A well-formed snapshot read-back with 6 answer records of
significance 0.9 each and the matching 6 answer files. -/
def six_answers_data : ExtractData :=
  { metadata :=
      { count := 6
        questions := none
        answers := some ((List.range 6).map (fun i => a_meta_09 (i + 1)))
        summary := "Found 0 questions and 6 answers in past 1 hour(s)"
        cutoff_time := some "2026-10-11T23:00:00Z" }
    questions := []
    answers := (List.range 6).map
      (fun i => ("2026-10-12T00-00-00-" ++ toString (i + 1) ++ ".txt", "x")) }

/-- The analysis record computed for `six_answers_data` (default value in
the unreachable branches). -/
def six_answers_analysis : Analysis :=
  match analyze_conversations (.ok six_answers_data) with
  | .ok (.ok an) => an
  | _ =>
    { period := none, total_questions := 0, total_answers := 0, topics := [],
      high_significance_answers := [], low_significance_answers := [],
      missing_answers := [], patterns := [] }

end SeqQA

/- Core marks the `Rat` arithmetic operations `[irreducible]`, which stops
`decide` from evaluating concrete rational computations; all values here
are exact small rationals, so we restore default reducibility locally. -/
attribute [local semireducible] Rat.add Rat.mul Rat.inv Rat.sub

namespace SeqQA

/-! ## Helper lemmas -/

theorem update_first_some {α : Type _} {p : α → Bool} {f : α → α}
    {l l' : List α} (h : update_first p f l = some l') :
    ∃ pre x post, l = pre ++ x :: post ∧ l' = pre ++ f x :: post ∧
      p x = true ∧ ∀ y ∈ pre, p y = false := by
  induction l generalizing l' with
  | nil => simp [update_first] at h
  | cons x xs ih =>
    by_cases hp : p x
    · rw [update_first, if_pos hp] at h
      refine ⟨[], x, xs, rfl, ?_, hp, by simp⟩
      simpa using h.symm
    · rw [update_first, if_neg hp] at h
      cases heq : update_first p f xs with
      | none => rw [heq] at h; simp at h
      | some l'' =>
        rw [heq] at h
        simp only [Option.map_some', Option.some.injEq] at h
        obtain ⟨pre, y, post, h1, h2, h3, h4⟩ := ih heq
        refine ⟨x :: pre, y, post, by simp [h1], ?_, h3, ?_⟩
        · rw [← h]; simp [h2]
        · intro z hz
          rcases List.mem_cons.mp hz with rfl | hz2
          · simpa using hp
          · exact h4 z hz2

theorem update_first_none {α : Type _} {p : α → Bool} {f : α → α}
    {l : List α} (h : ∀ x ∈ l, p x = false) : update_first p f l = none := by
  induction l with
  | nil => rfl
  | cons x xs ih =>
    rw [update_first, if_neg (by simp [h x (List.mem_cons_self x xs)]),
      ih (fun y hy => h y (List.mem_cons_of_mem x hy))]
    rfl

theorem find?_decomp {α : Type _} {p : α → Bool} {pre : List α} {x : α}
    {post : List α} (hpre : ∀ y ∈ pre, p y = false) (hx : p x = true) :
    (pre ++ x :: post).find? p = some x := by
  induction pre with
  | nil => simp [List.find?_cons, hx]
  | cons z zs ih =>
    have hz : p z = false := hpre z (by simp)
    rw [List.cons_append, List.find?_cons, hz]
    exact ih (fun y hy => hpre y (by simp [hy]))

theorem foldl_max_bounds (l : List Nat) :
    ∀ acc : Nat, acc ≤ l.foldl max acc ∧ ∀ x ∈ l, x ≤ l.foldl max acc := by
  induction l with
  | nil => intro acc; exact ⟨le_refl _, by simp⟩
  | cons y ys ih =>
    intro acc
    have h1 := ih (max acc y)
    simp only [List.foldl_cons]
    refine ⟨le_trans (le_max_left acc y) h1.1, ?_⟩
    intro x hx
    rcases List.mem_cons.mp hx with rfl | hx2
    · exact le_trans (le_max_right acc x) h1.1
    · exact h1.2 x hx2

theorem foldl_max_mem (l : List Nat) :
    ∀ acc, l.foldl max acc ∈ l ∨ l.foldl max acc = acc := by
  induction l with
  | nil => intro _; right; rfl
  | cons y ys ih =>
    intro acc
    simp only [List.foldl_cons]
    rcases ih (max acc y) with h | h
    · left; exact List.mem_cons_of_mem _ h
    · rcases Nat.le_total acc y with hle | hle
      · left; rw [h, Nat.max_eq_right hle]; exact List.mem_cons_self _ _
      · right; rw [h, Nat.max_eq_left hle]

theorem strict_incr_concat {l : List Nat} {n : Nat} (hl : strict_incr l = true)
    (hn : ∀ x ∈ l, x < n) : strict_incr (l ++ [n]) = true := by
  induction l with
  | nil => simp [strict_incr]
  | cons a t ih =>
    cases t with
    | nil =>
      have han : a < n := hn a (by simp)
      simp only [List.cons_append, List.nil_append]
      rw [strict_incr]
      simp [strict_incr, Nat.blt_eq, han]
    | cons b t2 =>
      rw [strict_incr] at hl
      simp only [Bool.and_eq_true] at hl
      obtain ⟨hab, hrest⟩ := hl
      have := ih hrest (fun x hx => hn x (List.mem_cons_of_mem a hx))
      simp only [List.cons_append]
      rw [strict_incr]
      simp only [Bool.and_eq_true]
      exact ⟨hab, by simpa using this⟩

theorem session_seq_ok_append {x : Session} {e : QAEntry} {now : String}
    (hok : session_seq_ok x = true)
    (hseq : e.seq = (x.qa_sequence.map (fun qa => qa.seq)).foldl max 0 + 1) :
    session_seq_ok
      { x with qa_sequence := x.qa_sequence ++ [e], last_updated := now } =
      true := by
  unfold session_seq_ok at hok ⊢
  simp only [Bool.and_eq_true] at hok ⊢
  obtain ⟨hhead, hincr⟩ := hok
  constructor
  · cases hq : x.qa_sequence with
    | nil =>
      rw [hq] at hseq
      have he1 : e.seq = 1 := by simpa using hseq
      simp [hq, he1]
    | cons f rest =>
      rw [hq] at hhead
      simpa [hq] using hhead
  · simp only [List.map_append, List.map_cons, List.map_nil]
    apply strict_incr_concat hincr
    intro v hv
    have := (foldl_max_bounds (x.qa_sequence.map (fun qa => qa.seq)) 0).2 v hv
    omega

theorem keep_pair_iff {qa : QAEntry} {ms : ℚ} :
    keep_pair qa ms = true ↔
      (pyTruthyStr qa.a = true → ¬ qa.a_significance < ms) := by
  unfold keep_pair
  cases h : pyTruthyStr qa.a <;> simp [h]

theorem add_qa_ok_decomp {data : Store} {now session_id user q : String}
    {a : Option String} {topic_tags : Option (List String)}
    {significance : Option ℚ} {data' : Store}
    (h : add_qa data now session_id user q a topic_tags significance =
      .ok data') :
    ∃ pre x post,
      data.sessions = pre ++ x :: post ∧
      (x.session_id == session_id) = true ∧
      (∀ y ∈ pre, (y.session_id == session_id) = false) ∧
      data'.sessions = pre ++
        { x with
            qa_sequence := x.qa_sequence ++
              [mk_qa_entry now (get_next_seq data session_id) user q a
                topic_tags
                (pyMax 0 (pyMin 1
                  (significance.getD (score_significance q a none))))]
            last_updated := now } :: post ∧
      data'.index.by_topic = (topic_tags.getD []).foldl
        (fun bt tag =>
          topic_insert bt tag ⟨session_id, get_next_seq data session_id⟩)
        data.index.by_topic ∧
      data'.index.by_recency =
        (⟨session_id, get_next_seq data session_id, now⟩ : RecencyRef) ::
          data.index.by_recency ∧
      data'.index.by_semantic_hash = dict_set data.index.by_semantic_hash
        (hash_text q) ⟨session_id, get_next_seq data session_id⟩ := by
  unfold add_qa at h
  dsimp only at h
  split at h
  · exact absurd h (by simp)
  · rename_i sessions' heq
    obtain rfl := (Except.ok.inj h).symm
    obtain ⟨pre, x, post, h1, h2, h3, h4⟩ := update_first_some heq
    exact ⟨pre, x, post, h1, h3, h4, h2, rfl, rfl, rfl⟩

theorem ref_ok_mono {st st' : Store} {pre post : List Session} {x : Session}
    {e : QAEntry} {now : String}
    (hs : st.sessions = pre ++ x :: post)
    (hs' : st'.sessions = pre ++
      { x with qa_sequence := x.qa_sequence ++ [e]
               last_updated := now } :: post)
    {r : IndexRef} (h : ref_ok st r = true) : ref_ok st' r = true := by
  unfold ref_ok at h ⊢
  rw [hs] at h
  rw [hs']
  simp only [List.any_append, List.any_cons, Bool.or_eq_true,
    Bool.and_eq_true] at h ⊢
  rcases h with h | ⟨h1, h2⟩ | h
  · exact Or.inl h
  · exact Or.inr (Or.inl ⟨h1, Or.inl h2⟩)
  · exact Or.inr (Or.inr h)

theorem ref_ok_new {st' : Store} {pre post : List Session} {x : Session}
    {e : QAEntry} {now sid : String}
    (hs' : st'.sessions = pre ++
      { x with qa_sequence := x.qa_sequence ++ [e]
               last_updated := now } :: post)
    (hid : (x.session_id == sid) = true) :
    ref_ok st' ⟨sid, e.seq⟩ = true := by
  unfold ref_ok
  rw [hs']
  simp only [List.any_append, List.any_cons, Bool.or_eq_true,
    Bool.and_eq_true]
  refine Or.inr (Or.inl ⟨?_, ?_⟩)
  · simpa using hid
  · simp

theorem all_topic_insert {P : IndexRef → Bool}
    {bt : List (String × List IndexRef)}
    (h : bt.all (fun p => p.2.all P) = true) {tag : String} {r : IndexRef}
    (hr : P r = true) :
    (topic_insert bt tag r).all (fun p => p.2.all P) = true := by
  unfold topic_insert
  rw [List.all_eq_true] at h
  split
  · rw [List.all_eq_true]
    intro p hp
    obtain ⟨p0, hp0, rfl⟩ := List.mem_map.mp hp
    split
    · simp only [List.all_append]
      simp only [Bool.and_eq_true]
      exact ⟨h p0 hp0, by simp [hr]⟩
    · exact h p0 hp0
  · rw [List.all_append]
    simp only [Bool.and_eq_true]
    exact ⟨List.all_eq_true.mpr h, by simp [hr]⟩

theorem all_topic_fold {P : IndexRef → Bool} {r : IndexRef} (hr : P r = true) :
    ∀ (tags : List String) (bt : List (String × List IndexRef)),
      bt.all (fun p => p.2.all P) = true →
      (tags.foldl (fun bt tag => topic_insert bt tag r) bt).all
        (fun p => p.2.all P) = true := by
  intro tags
  induction tags with
  | nil => intro bt h; exact h
  | cons t ts ih =>
    intro bt h
    exact ih _ (all_topic_insert h hr)

theorem all_dict_set {P : IndexRef → Bool} {m : List (String × IndexRef)}
    (h : m.all (fun p => P p.2) = true) {k : String} {v : IndexRef}
    (hv : P v = true) :
    (dict_set m k v).all (fun p => P p.2) = true := by
  unfold dict_set
  rw [List.all_eq_true] at h
  split
  · rw [List.all_eq_true]
    intro p hp
    obtain ⟨p0, hp0, rfl⟩ := List.mem_map.mp hp
    split
    · exact hv
    · exact h p0 hp0
  · rw [List.all_append]
    simp only [Bool.and_eq_true]
    exact ⟨List.all_eq_true.mpr h, by simp [hv]⟩

theorem classify_high_mem {l : List AMeta} {a : AMeta} (ha : a ∈ l)
    (hsig : a.significance.getD 0 ≥ 17/20) :
    ({ seq := a.seq, q_preview := a.q, significance := a.significance.getD 0,
       tokens := a.a_tokens } : HighAns) ∈ (classify_answers l).1 := by
  induction l with
  | nil => cases ha
  | cons b t ih =>
    rcases List.mem_cons.mp ha with rfl | hmem
    · simp only [classify_answers]
      rw [if_pos hsig]
      exact List.mem_cons_self _ _
    · have hin := ih hmem
      simp only [classify_answers]
      by_cases h1 : b.significance.getD 0 ≥ 17/20
      · rw [if_pos h1]; exact List.mem_cons_of_mem _ hin
      · rw [if_neg h1]
        by_cases h2 : b.significance.getD 0 < 1/2
        · rw [if_pos h2]; exact hin
        · rw [if_neg h2]; exact hin

theorem classify_low_mem {l : List AMeta} {a : AMeta} (ha : a ∈ l)
    (hsig : a.significance.getD 0 < 1/2) :
    ({ seq := a.seq, q_preview := a.q,
       significance := a.significance.getD 0 } : LowAns) ∈
      (classify_answers l).2 := by
  induction l with
  | nil => cases ha
  | cons b t ih =>
    rcases List.mem_cons.mp ha with rfl | hmem
    · simp only [classify_answers]
      rw [if_neg (by intro hge; have : (17:ℚ)/20 < 1/2 := lt_of_le_of_lt hge hsig; norm_num at this),
        if_pos hsig]
      exact List.mem_cons_self _ _
    · have hin := ih hmem
      simp only [classify_answers]
      by_cases h1 : b.significance.getD 0 ≥ 17/20
      · rw [if_pos h1]; exact hin
      · rw [if_neg h1]
        by_cases h2 : b.significance.getD 0 < 1/2
        · rw [if_pos h2]; exact List.mem_cons_of_mem _ hin
        · rw [if_neg h2]; exact hin

theorem mk_relevant_a (qt : List String) (sid : Option String)
    (sess : Session) (qa : QAEntry) : (mk_relevant qt sid sess qa).a = qa.a :=
  rfl

theorem mk_relevant_sig (qt : List String) (sid : Option String)
    (sess : Session) (qa : QAEntry) :
    (mk_relevant qt sid sess qa).significance = qa.a_significance := rfl

theorem mem_relevant_candidates {data : Store} {query : String}
    {sid : Option String} {ms : ℚ} {r : RelevantPair} :
    r ∈ relevant_candidates data query sid ms ↔
      ∃ sess, sess ∈ data.sessions ∧
        session_passes sid sess.session_id = true ∧
        ∃ qa, qa ∈ sess.qa_sequence ∧ keep_pair qa ms = true ∧
          r = mk_relevant (extract_tokens query) sid sess qa := by
  unfold relevant_candidates
  simp only [List.mem_flatMap, List.mem_filter, List.mem_map]
  constructor
  · rintro ⟨s, ⟨hs, hpass⟩, qa, ⟨hqa, hkeep⟩, heq⟩
    exact ⟨s, hs, hpass, qa, hqa, hkeep, heq.symm⟩
  · rintro ⟨s, hs, hpass, qa, hqa, hkeep, heq⟩
    exact ⟨s, ⟨hs, hpass⟩, qa, ⟨hqa, hkeep⟩, heq.symm⟩

end SeqQA

set_option maxRecDepth 200000

namespace SeqQA

/-! ## Claim theorems -/

/-- C1 (code bug, evaluated at the failing input): on a store holding one
entry, `find_relevant_pairs` raises `TypeError` from the sort key
`-x['timestamp']` (unary minus on an ISO timestamp string) instead of
returning the entries sorted by score and timestamp descending. -/
theorem claimC1_crash :
    find_relevant_pairs demo_store "database" none 5 0 =
      Except.error PyExn.typeError := rfl

/-- C2 (counterexample): for the spec's worked example — answer of length
600 containing "architecture" and "important", question "how to optimize
the database architecture" — the question yields 6 tokens, not 7, and
`score_significance` returns 19/20 = 0.95, not 1.0. -/
theorem claimC2_counterexample :
    spec_example_answer.length = 600 ∧
    pyIn "architecture" (pyLower spec_example_answer) = true ∧
    pyIn "important" (pyLower spec_example_answer) = true ∧
    (extract_tokens spec_example_question).length ≠ 7 ∧
    score_significance spec_example_question (some spec_example_answer) none
      ≠ 1 :=
  ⟨by decide, by decide, by decide, by decide, by decide⟩

/-- C2 (amended): for every answer of length 600 whose lowercase form
contains "architecture" and "important", paired with the worked example's
question, the question contributes 6 tokens (complexity term 0.15) and
`score_significance` returns exactly 0.95: the sum
0.3 + 0.15 + 0.25 + 0.15 + 0.1 (the actionable term fires on "how to" in
the question) stays below the 1.0 cap. -/
theorem claimC2 : ∀ ans : String, ans.length = 600 →
    pyIn "architecture" (pyLower ans) = true →
    pyIn "important" (pyLower ans) = true →
    (extract_tokens spec_example_question).length = 6 ∧
    score_significance spec_example_question (some ans) none = 19/20 := by
  intro ans h600 harch himp
  have hq6 : (extract_tokens spec_example_question).length = 6 := by decide
  refine ⟨hq6, ?_⟩
  have htech : technical_keywords.any (fun kw => pyIn kw (pyLower ans)) =
      true :=
    List.any_eq_true.mpr ⟨"architecture", by decide, harch⟩
  have himpk : important_keywords.any (fun kw =>
      pyIn kw (pyLower ans) || pyIn kw (pyLower spec_example_question)) =
      true :=
    List.any_eq_true.mpr ⟨"important", by decide, by rw [himp]; rfl⟩
  have hactk : action_keywords.any (fun kw =>
      pyIn kw (pyLower ans) || pyIn kw (pyLower spec_example_question)) =
      true :=
    List.any_eq_true.mpr ⟨"how to", by decide, by
      have hqin : pyIn "how to" (pyLower spec_example_question) = true := by
        decide
      rw [hqin, Bool.or_true]⟩
  simp only [score_significance, htech, himpk, hactk, if_true]
  rw [h600, hq6]
  norm_num [pyMin]

/-- C2 (witness): the amended statement at the concrete example answer. -/
theorem claimC2_witness :
    (extract_tokens spec_example_question).length = 6 ∧
    score_significance spec_example_question (some spec_example_answer) none
      = 19/20 :=
  claimC2 spec_example_answer (by decide) (by decide) (by decide)

/-- C3 (counterexample): an extraction directory whose aggregate metadata
file is malformed makes the analysis pipeline raise an uncaught
`JSONDecodeError` (`json.load` at the top of `read_extracted_files` is not
guarded), contradicting the claim that malformed metadata is reported as an
explicit analysis error value. -/
theorem claimC3_counterexample :
    summarize_pipeline malformed_dir = Except.error PyExn.jsonDecodeError :=
  rfl

/-- C3 (amended): a missing snapshot directory and a missing aggregate
metadata file are reported as explicit analysis error values that
short-circuit report generation with an error message; malformed metadata,
however, raises an uncaught `JSONDecodeError` that crashes the pipeline. -/
theorem claimC3 : ∀ fs : ExtractionDirFS,
    (fs.present = false →
      summarize_pipeline fs = Except.ok (Report.errorReport
        ("❌ Error: " ++ ("Directory not found: " ++ fs.path)))) ∧
    (fs.present = true → fs.meta_files = [] →
      summarize_pipeline fs = Except.ok (Report.errorReport
        ("❌ Error: " ++ ("No metadata file found in " ++ fs.path)))) ∧
    (fs.present = true → ∀ rest, fs.meta_files = MetaFile.malformed :: rest →
      summarize_pipeline fs = Except.error PyExn.jsonDecodeError) := by
  intro fs
  refine ⟨?_, ?_, ?_⟩
  · intro h
    have hread : read_extracted_files fs =
        .ok (.err ("Directory not found: " ++ fs.path)) := by
      unfold read_extracted_files
      rw [h]
      rfl
    unfold summarize_pipeline
    rw [hread]
    rfl
  · intro hp hm
    have hread : read_extracted_files fs =
        .ok (.err ("No metadata file found in " ++ fs.path)) := by
      unfold read_extracted_files
      rw [hp, hm]
      rfl
    unfold summarize_pipeline
    rw [hread]
    rfl
  · intro hp rest hm
    have hread : read_extracted_files fs = .error .jsonDecodeError := by
      unfold read_extracted_files
      rw [hp, hm]
      rfl
    unfold summarize_pipeline
    rw [hread]
    rfl

/-- C3 (witness): the two error-value conditions at concrete directories. -/
theorem claimC3_witness :
    summarize_pipeline missing_dir = Except.ok (Report.errorReport
      "❌ Error: Directory not found: /mem/extract-2") ∧
    summarize_pipeline no_meta_dir = Except.ok (Report.errorReport
      "❌ Error: No metadata file found in /mem/extract-3") :=
  ⟨(claimC3 missing_dir).1 rfl, (claimC3 no_meta_dir).2.1 rfl rfl⟩

/-- C10 (confirmed): for a known session with a non-empty entry sequence,
the recent-context operation with `window = 0` returns the whole entry
sequence in original order (Python `l[-0:]` is `l[0:]`), not an empty
result. -/
theorem claimC10 : ∀ (data : Store) (session_id : String) (sess : Session),
    data.sessions.find? (fun s => s.session_id == session_id) = some sess →
    sess.qa_sequence ≠ [] →
    get_recent_context data session_id 0 =
      sess.qa_sequence.map (fun qa =>
        { seq := qa.seq, q := qa.q, a := qa.a,
          timestamp := qa.timestamp }) ∧
    get_recent_context data session_id 0 ≠ [] := by
  intro data sid sess hfind hne
  have hgrc : get_recent_context data sid 0 =
      sess.qa_sequence.map (fun qa =>
        { seq := qa.seq, q := qa.q, a := qa.a,
          timestamp := qa.timestamp }) := by
    unfold get_recent_context
    rw [hfind]
    simp [py_slice_last]
  refine ⟨hgrc, ?_⟩
  rw [hgrc]
  simpa using hne

/-- C10 (witness): the theorem at the concrete demo store. -/
theorem claimC10_witness :
    get_recent_context demo_store "demo" 0 =
      [{ seq := 1, q := "what is the database", a := none,
         timestamp := "2026-10-12T00:00:00Z" }] ∧
    get_recent_context demo_store "demo" 0 ≠ [] := by
  have h := claimC10 demo_store "demo" demo_session rfl (by decide)
  exact ⟨h.1, h.2⟩

theorem pyMin_nonneg {x y : ℚ} (hx : 0 ≤ x) (hy : 0 ≤ y) : 0 ≤ pyMin x y := by
  unfold pyMin
  split <;> assumption

theorem pyMin_le_right (x y : ℚ) : pyMin x y ≤ y := by
  unfold pyMin
  split
  · assumption
  · exact le_refl y

/-- C4 (confirmed): `score_significance` always lands in [0,1] and returns
0 for an absent answer; when `add_qa` is called with an explicit
significance override, the entry appended to the addressed session stores
the override clamped to [0,1] (`max(0.0, min(1.0, significance))`). -/
theorem claimC4 :
    (∀ (q : String) (a prev : Option String),
      0 ≤ score_significance q a prev ∧ score_significance q a prev ≤ 1) ∧
    (∀ (q : String) (prev : Option String),
      score_significance q none prev = 0) ∧
    (∀ (data : Store) (now session_id user q : String) (a : Option String)
      (topic_tags : Option (List String)) (ov : ℚ) (data' : Store),
      add_qa data now session_id user q a topic_tags (some ov) = .ok data' →
      ((data'.sessions.find? (fun s => s.session_id == session_id)).bind
          (fun s => s.qa_sequence.getLast?)).map QAEntry.a_significance =
        some (pyMax 0 (pyMin 1 ov))) := by
  refine ⟨?_, ?_, ?_⟩
  · intro q a prev
    match a with
    | none => exact ⟨le_refl 0, by norm_num [score_significance]⟩
    | some ans =>
      simp only [score_significance]
      constructor
      · apply pyMin_nonneg _ zero_le_one
        have h1 : 0 ≤ pyMin ((ans.length : ℚ)/500) 1 * (3/10) :=
          mul_nonneg (pyMin_nonneg (by positivity) zero_le_one) (by norm_num)
        have h2 : 0 ≤ pyMin (((extract_tokens q).length : ℚ)/8) 1 * (1/5) :=
          mul_nonneg (pyMin_nonneg (by positivity) zero_le_one) (by norm_num)
        have h3 : (0:ℚ) ≤
            (if technical_keywords.any (fun kw => pyIn kw (pyLower ans))
             then 1/4 else 0) := by split <;> norm_num
        have h4 : (0:ℚ) ≤
            (if important_keywords.any (fun kw =>
              pyIn kw (pyLower ans) || pyIn kw (pyLower q))
             then 3/20 else 0) := by split <;> norm_num
        have h5 : (0:ℚ) ≤
            (if action_keywords.any (fun kw =>
              pyIn kw (pyLower ans) || pyIn kw (pyLower q))
             then 1/10 else 0) := by split <;> norm_num
        linarith
      · exact pyMin_le_right _ _
  · intro q prev
    rfl
  · intro data now sid user q a tags ov data' h
    obtain ⟨pre, x, post, _, h2, h3, h4, _, _, _⟩ := add_qa_ok_decomp h
    have hfind : data'.sessions.find?
        (fun s => s.session_id == sid) = some
          { x with
              qa_sequence := x.qa_sequence ++
                [mk_qa_entry now (get_next_seq data sid) user q a tags
                  (pyMax 0 (pyMin 1
                    ((some ov).getD (score_significance q a none))))]
              last_updated := now } := by
      rw [h4]
      exact find?_decomp h3 h2
    rw [hfind]
    simp [mk_qa_entry, List.getLast?_concat]

/-- C4 (witness): the override 1.5 is stored clamped to 1. -/
theorem claimC4_witness :
    ((demo_store3.sessions.find? (fun s => s.session_id == "demo")).bind
        (fun s => s.qa_sequence.getLast?)).map QAEntry.a_significance =
      some (pyMax 0 (pyMin 1 (3/2))) :=
  claimC4.2.2 demo_store "2026-10-12T02:00:00Z" "demo" "carol"
    "which index should we use" (some "a covering index") none (3/2)
    demo_store3 rfl

/-- C6 (confirmed): for any entry of a session surviving the session
filter, its candidate record enters `find_relevant_pairs`' `relevant` list
iff it is not the case that the entry has a (Python-truthy) answer with
significance below `min_significance`; in particular an entry with no
answer is never excluded by this filter. -/
theorem claimC6 : ∀ (data : Store) (query : String)
    (session_id : Option String) (min_significance : ℚ) (sess : Session)
    (qa : QAEntry),
    sess ∈ data.sessions →
    session_passes session_id sess.session_id = true →
    qa ∈ sess.qa_sequence →
    (mk_relevant (extract_tokens query) session_id sess qa ∈
        relevant_candidates data query session_id min_significance ↔
      (pyTruthyStr qa.a = true → ¬ qa.a_significance < min_significance)) := by
  intro data query sid ms sess qa hs hpass hqa
  constructor
  · intro hmem
    obtain ⟨s', _, _, qa', _, hkeep', heq⟩ := mem_relevant_candidates.mp hmem
    have ha : qa.a = qa'.a := by
      have hcongr := congrArg RelevantPair.a heq
      simpa [mk_relevant_a] using hcongr
    have hsig : qa.a_significance = qa'.a_significance := by
      have hcongr := congrArg RelevantPair.significance heq
      simpa [mk_relevant_sig] using hcongr
    have hkeep : keep_pair qa ms = true := by
      unfold keep_pair at hkeep' ⊢
      rw [ha, hsig]
      exact hkeep'
    exact keep_pair_iff.mp hkeep
  · intro hrhs
    exact mem_relevant_candidates.mpr
      ⟨sess, hs, hpass, qa, hqa, keep_pair_iff.mpr hrhs, rfl⟩

/-- C6 (witness): the answerless demo entry is a candidate regardless of
the filter. -/
theorem claimC6_witness :
    mk_relevant (extract_tokens "database") none demo_session demo_entry ∈
      relevant_candidates demo_store "database" none 0 :=
  (claimC6 demo_store "database" none 0 demo_session demo_entry (by decide)
    rfl (by decide)).mpr (by decide)

/-- C8 (confirmed): appending to a session id not present in the store
fails with the session-not-found error before any entry, index or counter
mutation and before any write of the persisted document (the `.error`
result is the unmodified-store outcome of `return False`). -/
theorem claimC8 : ∀ (data : Store) (now session_id user q : String)
    (a : Option String) (topic_tags : Option (List String))
    (significance : Option ℚ),
    (∀ sess ∈ data.sessions, sess.session_id ≠ session_id) →
    add_qa data now session_id user q a topic_tags significance =
      Except.error AddError.sessionNotFound := by
  intro data now sid user q a tags sig h
  unfold add_qa
  dsimp only
  rw [update_first_none (fun x hx => by simpa using h x hx)]

/-- C8 (witness): appending to the absent session "ghost" fails. -/
theorem claimC8_witness :
    add_qa demo_store "2026-10-12T03:00:00Z" "ghost" "dave" "anyone here"
      none none none = Except.error AddError.sessionNotFound :=
  claimC8 demo_store "2026-10-12T03:00:00Z" "ghost" "dave" "anyone here"
    none none none (by decide)

theorem all_imp {α : Type _} {p q : α → Bool} {l : List α}
    (h : l.all p = true) (himp : ∀ x ∈ l, p x = true → q x = true) :
    l.all q = true := by
  rw [List.all_eq_true] at h ⊢
  exact fun x hx => himp x hx (h x hx)

/-- One `add_qa` step preserves the per-session sequence invariant. -/
theorem add_qa_preserves_seq_ok {data data' : Store}
    {now sid user q : String} {a : Option String}
    {tags : Option (List String)} {sig : Option ℚ}
    (hinv : store_seq_ok data = true)
    (h : add_qa data now sid user q a tags sig = .ok data') :
    store_seq_ok data' = true := by
  obtain ⟨pre, x, post, h1, h2, h3, h4, _, _, _⟩ := add_qa_ok_decomp h
  have hfind : data.sessions.find? (fun s => s.session_id == sid) = some x :=
    h1 ▸ find?_decomp h3 h2
  have hnext : get_next_seq data sid =
      (x.qa_sequence.map (fun qa => qa.seq)).foldl max 0 + 1 := by
    unfold get_next_seq
    rw [hfind]
  unfold store_seq_ok at hinv ⊢
  rw [h1] at hinv
  rw [h4]
  simp only [List.all_append, List.all_cons, Bool.and_eq_true] at hinv ⊢
  obtain ⟨hpre, hx, hpost⟩ := hinv
  refine ⟨hpre, ?_, hpost⟩
  apply session_seq_ok_append hx
  simp [mk_qa_entry, hnext]

/-- C5 (confirmed): starting from a store whose sessions all have sequence
numbers beginning at 1 and strictly increasing, any store reachable by
appends keeps that invariant; `get_next_seq` returns 1 for an unknown or
empty session and max+1 otherwise; and a successful append stores exactly
that number on the entry it appends. -/
theorem claimC5 :
    (∀ s t : Store, Relation.ReflTransGen append_step s t →
      store_seq_ok s = true → store_seq_ok t = true) ∧
    (∀ (st : Store) (sid : String),
      st.sessions.find? (fun s => s.session_id == sid) = none →
      get_next_seq st sid = 1) ∧
    (∀ (st : Store) (sid : String) (sess : Session),
      st.sessions.find? (fun s => s.session_id == sid) = some sess →
      (sess.qa_sequence = [] → get_next_seq st sid = 1) ∧
      (sess.qa_sequence ≠ [] → ∃ m,
        m ∈ sess.qa_sequence.map (fun e => e.seq) ∧
        (∀ v ∈ sess.qa_sequence.map (fun e => e.seq), v ≤ m) ∧
        get_next_seq st sid = m + 1)) ∧
    (∀ (data : Store) (now sid user q : String) (a : Option String)
      (tags : Option (List String)) (sig : Option ℚ) (data' : Store),
      add_qa data now sid user q a tags sig = .ok data' →
      ((data'.sessions.find? (fun s => s.session_id == sid)).bind
          (fun s => s.qa_sequence.getLast?)).map QAEntry.seq =
        some (get_next_seq data sid)) := by
  refine ⟨?_, ?_, ?_, ?_⟩
  · intro s t h
    induction h with
    | refl => exact fun hs => hs
    | tail _ hstep ih =>
      intro hs
      obtain ⟨now, sid, user, q, a, tags, sig, heq⟩ := hstep
      exact add_qa_preserves_seq_ok (ih hs) heq
  · intro st sid h
    unfold get_next_seq
    rw [h]
  · intro st sid sess h
    constructor
    · intro he
      unfold get_next_seq
      rw [h]
      simp [he]
    · intro hne
      refine ⟨(sess.qa_sequence.map (fun e => e.seq)).foldl max 0, ?_,
        (foldl_max_bounds _ 0).2, by unfold get_next_seq; rw [h]⟩
      rcases foldl_max_mem (sess.qa_sequence.map (fun e => e.seq)) 0 with
        hm | hm
      · exact hm
      · cases hq : sess.qa_sequence with
        | nil => exact absurd hq hne
        | cons f rest =>
          rw [hq] at hm
          have hb := (foldl_max_bounds
            ((f :: rest).map (fun e => e.seq)) 0).2 f.seq (by simp)
          rw [hm] at hb ⊢
          have hf0 : f.seq = 0 := Nat.le_zero.mp hb
          simp [hf0]
  · intro data now sid user q a tags sig data' h
    obtain ⟨pre, x, post, _, h2, h3, h4, _, _, _⟩ := add_qa_ok_decomp h
    have hfind : data'.sessions.find?
        (fun s => s.session_id == sid) = some
          { x with
              qa_sequence := x.qa_sequence ++
                [mk_qa_entry now (get_next_seq data sid) user q a tags
                  (pyMax 0 (pyMin 1
                    (sig.getD (score_significance q a none))))]
              last_updated := now } := by
      rw [h4]
      exact find?_decomp h3 h2
    rw [hfind]
    simp [mk_qa_entry, List.getLast?_concat]

/-- C5 (witness): the invariant survives a concrete append. -/
theorem claimC5_witness : store_seq_ok demo_store2 = true :=
  claimC5.1 demo_store demo_store2
    (Relation.ReflTransGen.single
      ⟨"2026-10-12T01:00:00Z", "demo", "bob", "how to tune the database",
        some "use an index, this is important for the database design",
        some ["db"], none, rfl⟩)
    (by decide)

/-- C7 (confirmed): a successful `add_qa` keeps all three secondary
indices referencing only existing (session, seq) pairs: old references
still resolve after the append, and every reference the append adds points
at the entry it just appended. -/
theorem claimC7 : ∀ (data : Store) (now session_id user q : String)
    (a : Option String) (topic_tags : Option (List String))
    (significance : Option ℚ) (data' : Store),
    index_consistent data = true →
    add_qa data now session_id user q a topic_tags significance =
      .ok data' →
    index_consistent data' = true := by
  intro data now sid user q a tags sig data' hic h
  obtain ⟨pre, x, post, h1, h2, h3, h4, h5, h6, h7⟩ := add_qa_ok_decomp h
  unfold index_consistent at hic ⊢
  simp only [Bool.and_eq_true] at hic ⊢
  obtain ⟨⟨htopic, hrec⟩, hhash⟩ := hic
  have hmono : ∀ r : IndexRef, ref_ok data r = true → ref_ok data' r = true :=
    fun r hr => ref_ok_mono h1 h4 hr
  have hnew : ref_ok data' ⟨sid, get_next_seq data sid⟩ = true := by
    have hn := ref_ok_new h4 h2
    simpa [mk_qa_entry] using hn
  refine ⟨⟨?_, ?_⟩, ?_⟩
  · rw [h5]
    apply all_topic_fold hnew
    exact all_imp htopic (fun p _ hp =>
      all_imp hp (fun rr _ hrr => hmono rr hrr))
  · rw [h6]
    simp only [List.all_cons, Bool.and_eq_true]
    exact ⟨hnew, all_imp hrec (fun r _ hr => hmono _ hr)⟩
  · rw [h7]
    exact all_dict_set
      (all_imp hhash (fun p _ hp => hmono _ hp)) hnew

/-- C7 (witness): index consistency survives a concrete append. -/
theorem claimC7_witness : index_consistent demo_store2 = true :=
  claimC7 demo_store "2026-10-12T01:00:00Z" "demo" "bob"
    "how to tune the database"
    (some "use an index, this is important for the database design")
    (some ["db"]) none demo_store2 (by decide) rfl

/-- C9 (confirmed): reading back a snapshot whose metadata lists 6 answers
with mean significance 0.9 (and whose `answers/` directory holds the 6
matching files, as the persist stage writes one file per answer record),
the analysis holds every answer of significance ≥ 0.85 in the
high-significance list, every answer of significance < 0.5 in the
low-significance list, and its patterns include
"High quality conversation period" (mean > 0.8 with more than 5 answers). -/
theorem claimC9 : ∀ (d : ExtractData) (l : List AMeta),
    d.metadata.answers = some l → l.length = 6 → d.answers.length = 6 →
    (l.map (fun a => a.significance.getD 0)).sum = 27/5 →
    ∃ an : Analysis,
      analyze_conversations (.ok d) = .ok (.ok an) ∧
      "High quality conversation period" ∈ an.patterns ∧
      (∀ a ∈ l, a.significance.getD 0 ≥ 17/20 →
        ({ seq := a.seq, q_preview := a.q,
           significance := a.significance.getD 0,
           tokens := a.a_tokens } : HighAns) ∈
          an.high_significance_answers) ∧
      (∀ a ∈ l, a.significance.getD 0 < 1/2 →
        ({ seq := a.seq, q_preview := a.q,
           significance := a.significance.getD 0 } : LowAns) ∈
          an.low_significance_answers) := by
  intro d l hans hlen hfiles hsum
  have h65 : d.answers.length > 5 := by rw [hfiles]; norm_num
  have hlen0 : ¬ (l.length = 0) := by rw [hlen]; norm_num
  have havg : ((l.map (fun a => a.significance.getD 0)).sum) /
      ((l.length : Nat) : ℚ) = 9/10 := by
    rw [hsum, hlen]
    norm_num
  have hgt : ((l.map (fun a => a.significance.getD 0)).sum) /
      ((l.length : Nat) : ℚ) > 4/5 := by rw [havg]; norm_num
  have hnlt : ¬ (((l.map (fun a => a.significance.getD 0)).sum) /
      ((l.length : Nat) : ℚ) < 1/2) := by rw [havg]; norm_num
  simp only [analyze_conversations, hans, Option.getD_some]
  rw [if_pos h65, if_neg hlen0, if_pos hgt, if_neg hnlt]
  refine ⟨_, rfl, ?_, ?_, ?_⟩
  · simp
  · intro a ha hsig
    simpa using classify_high_mem ha hsig
  · intro a ha hsig
    simpa using classify_low_mem ha hsig

/-- C9 (witness): the concrete six-answer snapshot triggers the
high-quality pattern. -/
theorem claimC9_witness :
    analyze_conversations (.ok six_answers_data) =
      .ok (.ok six_answers_analysis) ∧
    "High quality conversation period" ∈ six_answers_analysis.patterns := by
  obtain ⟨an, heq, hmem, _, _⟩ := claimC9 six_answers_data
    ((List.range 6).map (fun i => a_meta_09 (i + 1)))
    rfl (by decide) (by decide) (by decide)
  have hda : six_answers_analysis = an := by
    unfold six_answers_analysis
    rw [heq]
  exact ⟨by rw [hda]; exact heq, by rw [hda]; exact hmem⟩

end SeqQA
